import Mathlib

/-!
Shallow embedding of the payments ledger engine (`src/main.rs`), and proofs
of the specification claims about it.

The Rust program keeps three containers:
  * `accounts     : HashMap<ClientId, AccountInfo>`
  * `transactions : HashMap<TxnId, (TxnKind, ClientId, Decimal)>`
  * `disputed     : HashSet<TxnId>`
and applies one event (`Txn`) at a time in `process_file`'s loop.

Here `accounts` is modelled as a total function `ClientId → AccountInfo`
(absent clients map to the default zero account) together with the finite
set `knownClients` of keys actually present (the `entry().or_insert_with`
calls grow this set; inserting the default account leaves the totalized
balance view unchanged, so reading an account before or after its
`or_insert` gives the same value).  `transactions` is a partial map
`TxnId → Option TxEntry`, and `disputed` is a `Finset TxnId`.

Amounts: every amount entering the engine is a `rust_decimal` value rounded
to 4 fractional digits (`round_dp(4)` in `txn_of_string_record`), and the
engine only ever adds, subtracts and compares such values — operations that
are exact in `rust_decimal` and closed over multiples of 10⁻⁴.  So amounts
are modelled exactly as integers counting 10⁻⁴ currency units (e.g. the
input amount `7.5` is the `Amount` 75000).
-/

abbrev ClientId := Nat
abbrev TxnId := Nat
abbrev Amount := Int

structure AccountInfo where
  available : Amount
  held : Amount
  is_locked : Bool
deriving DecidableEq, Repr

/-- `AccountInfo::default()`: zero balances, unlocked. -/
def AccountInfo.def0 : AccountInfo := ⟨0, 0, false⟩

/-- The kind tag stored with each recorded transaction. -/
inductive TxnKind where
  | DepositKind
  | WithdrawalKind
deriving DecidableEq, Repr

/-- One entry of the transaction table: the tuple
`(TxnKind, ClientId, Decimal)` stored by the Rust code. -/
structure TxEntry where
  kind : TxnKind
  client : ClientId
  amount : Amount
deriving DecidableEq, Repr

/-- The event type (`enum Txn` in the source). -/
inductive Txn where
  | Deposit (client : ClientId) (tx : TxnId) (amount : Amount)
  | Withdrawal (client : ClientId) (tx : TxnId) (amount : Amount)
  | Dispute (client : ClientId) (tx : TxnId)
  | Resolve (client : ClientId) (tx : TxnId)
  | Chargeback (client : ClientId) (tx : TxnId)
deriving DecidableEq, Repr

/-- The client field of an event. -/
def Txn.client : Txn → ClientId
  | .Deposit c _ _ => c
  | .Withdrawal c _ _ => c
  | .Dispute c _ => c
  | .Resolve c _ => c
  | .Chargeback c _ => c

/-- Events produced by `txn_of_string_record` always carry a strictly
positive amount (the adapter rejects `amount <= 0`). -/
def Txn.wf (e : Txn) : Prop :=
  match e with
  | .Deposit _ _ a => 0 < a
  | .Withdrawal _ _ a => 0 < a
  | .Dispute _ _ => True
  | .Resolve _ _ => True
  | .Chargeback _ _ => True

instance Txn.wfDecidable (e : Txn) : Decidable e.wf :=
  match e with
  | .Deposit _ _ a => inferInstanceAs (Decidable (0 < a))
  | .Withdrawal _ _ a => inferInstanceAs (Decidable (0 < a))
  | .Dispute _ _ => inferInstanceAs (Decidable True)
  | .Resolve _ _ => inferInstanceAs (Decidable True)
  | .Chargeback _ _ => inferInstanceAs (Decidable True)

def wfEvents (es : List Txn) : Prop := ∀ e ∈ es, e.wf

instance (es : List Txn) : Decidable (wfEvents es) :=
  inferInstanceAs (Decidable (∀ e ∈ es, e.wf))

/-- How the engine disposed of one event: applied, or rejected with the
reason matching the corresponding `eprintln!` + `continue` in the source. -/
inductive Outcome where
  | ok
  | lockedAccount
  | duplicateTxn
  | insufficientFunds
  | unknownTxn
  | clientMismatch
  | undisputedTxn
deriving DecidableEq, Repr

/-- The whole mutable state of `process_file`'s loop. -/
structure EngineState where
  accounts : ClientId → AccountInfo
  knownClients : Finset ClientId
  transactions : TxnId → Option TxEntry
  disputed : Finset TxnId

def initState : EngineState :=
  { accounts := fun _ => AccountInfo.def0
    knownClients := ∅
    transactions := fun _ => none
    disputed := ∅ }

/-- Point update of the account table. -/
def setAcct (f : ClientId → AccountInfo) (c : ClientId) (a : AccountInfo) :
    ClientId → AccountInfo :=
  fun c2 => if c2 = c then a else f c2

/-- Point update (insert) of the transaction table. -/
def setTx (f : TxnId → Option TxEntry) (t : TxnId) (v : TxEntry) :
    TxnId → Option TxEntry :=
  fun t2 => if t2 = t then some v else f t2

/-- `accounts.entry(client).or_insert_with(AccountInfo::default)`: make the
client known; the totalized balance view is unchanged because an absent
client already reads as the default account. -/
def touch (s : EngineState) (c : ClientId) : EngineState :=
  { s with knownClients := insert c s.knownClients }

/-- The `Txn::Deposit` arm of the match in `process_file`: create the
account entry, reject if locked, reject a duplicate tx id, otherwise insert
the transaction record and credit `available`. -/
def applyDeposit (s : EngineState) (client : ClientId) (tx : TxnId)
    (amount : Amount) : EngineState × Outcome :=
  let a := s.accounts client
  if a.is_locked then (touch s client, .lockedAccount)
  else if (s.transactions tx).isSome then (touch s client, .duplicateTxn)
  else
    ({ accounts := setAcct s.accounts client { a with available := a.available + amount }
       knownClients := insert client s.knownClients
       transactions := setTx s.transactions tx ⟨.DepositKind, client, amount⟩
       disputed := s.disputed }, .ok)

/-- The `Txn::Withdrawal` arm.  Note the transaction record is inserted
*before* the funds check, exactly as in the source (lines 153-164): a
withdrawal rejected for insufficient funds still leaves its record in the
transaction table. -/
def applyWithdrawal (s : EngineState) (client : ClientId) (tx : TxnId)
    (amount : Amount) : EngineState × Outcome :=
  let a := s.accounts client
  if a.is_locked then (touch s client, .lockedAccount)
  else if (s.transactions tx).isSome then (touch s client, .duplicateTxn)
  else if amount ≤ a.available then
    ({ accounts := setAcct s.accounts client { a with available := a.available - amount }
       knownClients := insert client s.knownClients
       transactions := setTx s.transactions tx ⟨.WithdrawalKind, client, amount⟩
       disputed := s.disputed }, .ok)
  else
    ({ accounts := s.accounts
       knownClients := insert client s.knownClients
       transactions := setTx s.transactions tx ⟨.WithdrawalKind, client, amount⟩
       disputed := s.disputed }, .insufficientFunds)

/-- The `Txn::Dispute` arm: look up the transaction (absent ⇒ silently
ignore), check the owning client, create/read the account, check locked,
then move the original amount from `available` to `held` if enough is
available, adding the tx id to the dispute set. -/
def applyDispute (s : EngineState) (client : ClientId) (tx : TxnId) :
    EngineState × Outcome :=
  match s.transactions tx with
  | none => (s, .unknownTxn)
  | some entry =>
    if client ≠ entry.client then (s, .clientMismatch)
    else
      let a := s.accounts client
      if a.is_locked then (touch s client, .lockedAccount)
      else if entry.amount ≤ a.available then
        ({ accounts := setAcct s.accounts client
            { a with available := a.available - entry.amount, held := a.held + entry.amount }
           knownClients := insert client s.knownClients
           transactions := s.transactions
           disputed := insert tx s.disputed }, .ok)
      else (touch s client, .insufficientFunds)

/-- The `Txn::Resolve` arm: same lookup/mismatch/locked checks, then move
the amount from `held` back to `available` if the tx is currently disputed,
removing it from the dispute set. -/
def applyResolve (s : EngineState) (client : ClientId) (tx : TxnId) :
    EngineState × Outcome :=
  match s.transactions tx with
  | none => (s, .unknownTxn)
  | some entry =>
    if client ≠ entry.client then (s, .clientMismatch)
    else
      let a := s.accounts client
      if a.is_locked then (touch s client, .lockedAccount)
      else if tx ∈ s.disputed then
        ({ accounts := setAcct s.accounts client
            { a with available := a.available + entry.amount, held := a.held - entry.amount }
           knownClients := insert client s.knownClients
           transactions := s.transactions
           disputed := s.disputed.erase tx }, .ok)
      else (touch s client, .undisputedTxn)

/-- The `Txn::Chargeback` arm: same lookup/mismatch/locked checks, then
debit `held`, lock the account and remove the tx from the dispute set if it
is currently disputed. -/
def applyChargeback (s : EngineState) (client : ClientId) (tx : TxnId) :
    EngineState × Outcome :=
  match s.transactions tx with
  | none => (s, .unknownTxn)
  | some entry =>
    if client ≠ entry.client then (s, .clientMismatch)
    else
      let a := s.accounts client
      if a.is_locked then (touch s client, .lockedAccount)
      else if tx ∈ s.disputed then
        ({ accounts := setAcct s.accounts client
            { a with held := a.held - entry.amount, is_locked := true }
           knownClients := insert client s.knownClients
           transactions := s.transactions
           disputed := s.disputed.erase tx }, .ok)
      else (touch s client, .undisputedTxn)

/-- One iteration of the event loop: apply one parsed event. -/
def step (s : EngineState) (e : Txn) : EngineState × Outcome :=
  match e with
  | .Deposit client tx amount => applyDeposit s client tx amount
  | .Withdrawal client tx amount => applyWithdrawal s client tx amount
  | .Dispute client tx => applyDispute s client tx
  | .Resolve client tx => applyResolve s client tx
  | .Chargeback client tx => applyChargeback s client tx

/-- The whole loop: fold the events through `step`, in input order. -/
def processEvents (s : EngineState) (es : List Txn) : EngineState :=
  es.foldl (fun s e => (step s e).1) s

theorem processEvents_nil (s : EngineState) : processEvents s [] = s := rfl

theorem processEvents_cons (s : EngineState) (e : Txn) (es : List Txn) :
    processEvents s (e :: es) = processEvents (step s e).1 es := rfl

theorem processEvents_append (s : EngineState) (es1 es2 : List Txn) :
    processEvents s (es1 ++ es2) = processEvents (processEvents s es1) es2 :=
  List.foldl_append ..

@[simp] theorem setAcct_self (f : ClientId → AccountInfo) (c : ClientId)
    (a : AccountInfo) : setAcct f c a c = a := by simp [setAcct]

theorem setAcct_ne (f : ClientId → AccountInfo) {c c2 : ClientId}
    (a : AccountInfo) (h : c2 ≠ c) : setAcct f c a c2 = f c2 := by
  simp [setAcct, h]

@[simp] theorem setTx_self (f : TxnId → Option TxEntry) (t : TxnId)
    (v : TxEntry) : setTx f t v t = some v := by simp [setTx]

theorem setTx_ne (f : TxnId → Option TxEntry) {t t2 : TxnId} (v : TxEntry)
    (h : t2 ≠ t) : setTx f t v t2 = f t2 := by simp [setTx, h]

@[simp] theorem touch_accounts (s : EngineState) (c : ClientId) :
    (touch s c).accounts = s.accounts := rfl

@[simp] theorem touch_transactions (s : EngineState) (c : ClientId) :
    (touch s c).transactions = s.transactions := rfl

@[simp] theorem touch_disputed (s : EngineState) (c : ClientId) :
    (touch s c).disputed = s.disputed := rfl

/-! ### Branch characterizations of the five event arms -/

theorem applyDeposit_locked (s : EngineState) (client : ClientId) (tx : TxnId)
    (amount : Amount) (hl : (s.accounts client).is_locked = true) :
    applyDeposit s client tx amount = (touch s client, .lockedAccount) := by
  unfold applyDeposit; simp [hl]

theorem applyDeposit_dup (s : EngineState) (client : ClientId) (tx : TxnId)
    (amount : Amount) (hl : (s.accounts client).is_locked = false)
    (hdup : (s.transactions tx).isSome) :
    applyDeposit s client tx amount = (touch s client, .duplicateTxn) := by
  unfold applyDeposit; simp [hl, hdup]

theorem applyDeposit_ok (s : EngineState) (client : ClientId) (tx : TxnId)
    (amount : Amount) (hl : (s.accounts client).is_locked = false)
    (hfresh : s.transactions tx = none) :
    applyDeposit s client tx amount =
      ({ accounts := setAcct s.accounts client
          { s.accounts client with available := (s.accounts client).available + amount }
         knownClients := insert client s.knownClients
         transactions := setTx s.transactions tx ⟨.DepositKind, client, amount⟩
         disputed := s.disputed }, .ok) := by
  unfold applyDeposit; simp [hl, hfresh]

theorem applyWithdrawal_locked (s : EngineState) (client : ClientId) (tx : TxnId)
    (amount : Amount) (hl : (s.accounts client).is_locked = true) :
    applyWithdrawal s client tx amount = (touch s client, .lockedAccount) := by
  unfold applyWithdrawal; simp [hl]

theorem applyWithdrawal_dup (s : EngineState) (client : ClientId) (tx : TxnId)
    (amount : Amount) (hl : (s.accounts client).is_locked = false)
    (hdup : (s.transactions tx).isSome) :
    applyWithdrawal s client tx amount = (touch s client, .duplicateTxn) := by
  unfold applyWithdrawal; simp [hl, hdup]

theorem applyWithdrawal_ok (s : EngineState) (client : ClientId) (tx : TxnId)
    (amount : Amount) (hl : (s.accounts client).is_locked = false)
    (hfresh : s.transactions tx = none)
    (hav : amount ≤ (s.accounts client).available) :
    applyWithdrawal s client tx amount =
      ({ accounts := setAcct s.accounts client
          { s.accounts client with available := (s.accounts client).available - amount }
         knownClients := insert client s.knownClients
         transactions := setTx s.transactions tx ⟨.WithdrawalKind, client, amount⟩
         disputed := s.disputed }, .ok) := by
  unfold applyWithdrawal; simp [hl, hfresh, hav]

theorem applyWithdrawal_insufficient (s : EngineState) (client : ClientId)
    (tx : TxnId) (amount : Amount)
    (hl : (s.accounts client).is_locked = false)
    (hfresh : s.transactions tx = none)
    (hav : ¬ amount ≤ (s.accounts client).available) :
    applyWithdrawal s client tx amount =
      ({ accounts := s.accounts
         knownClients := insert client s.knownClients
         transactions := setTx s.transactions tx ⟨.WithdrawalKind, client, amount⟩
         disputed := s.disputed }, .insufficientFunds) := by
  unfold applyWithdrawal; simp [hl, hfresh, hav]

theorem applyDispute_unknown (s : EngineState) (client : ClientId) (tx : TxnId)
    (h : s.transactions tx = none) :
    applyDispute s client tx = (s, .unknownTxn) := by
  unfold applyDispute; rw [h]

theorem applyDispute_mismatch (s : EngineState) (client : ClientId) (tx : TxnId)
    (entry : TxEntry) (h : s.transactions tx = some entry)
    (hc : client ≠ entry.client) :
    applyDispute s client tx = (s, .clientMismatch) := by
  unfold applyDispute; rw [h]; simp [hc]

theorem applyDispute_locked (s : EngineState) (client : ClientId) (tx : TxnId)
    (entry : TxEntry) (h : s.transactions tx = some entry)
    (hc : client = entry.client) (hl : (s.accounts client).is_locked = true) :
    applyDispute s client tx = (touch s client, .lockedAccount) := by
  unfold applyDispute; rw [h]; subst hc; simp [hl]

theorem applyDispute_ok (s : EngineState) (client : ClientId) (tx : TxnId)
    (entry : TxEntry) (h : s.transactions tx = some entry)
    (hc : client = entry.client) (hl : (s.accounts client).is_locked = false)
    (hav : entry.amount ≤ (s.accounts client).available) :
    applyDispute s client tx =
      ({ accounts := setAcct s.accounts client
          { s.accounts client with
              available := (s.accounts client).available - entry.amount
              held := (s.accounts client).held + entry.amount }
         knownClients := insert client s.knownClients
         transactions := s.transactions
         disputed := insert tx s.disputed }, .ok) := by
  unfold applyDispute; rw [h]; subst hc; simp [hl, hav]

theorem applyDispute_insufficient (s : EngineState) (client : ClientId)
    (tx : TxnId) (entry : TxEntry) (h : s.transactions tx = some entry)
    (hc : client = entry.client) (hl : (s.accounts client).is_locked = false)
    (hav : ¬ entry.amount ≤ (s.accounts client).available) :
    applyDispute s client tx = (touch s client, .insufficientFunds) := by
  unfold applyDispute; rw [h]; subst hc; simp [hl, hav]

theorem applyResolve_unknown (s : EngineState) (client : ClientId) (tx : TxnId)
    (h : s.transactions tx = none) :
    applyResolve s client tx = (s, .unknownTxn) := by
  unfold applyResolve; rw [h]

theorem applyResolve_mismatch (s : EngineState) (client : ClientId) (tx : TxnId)
    (entry : TxEntry) (h : s.transactions tx = some entry)
    (hc : client ≠ entry.client) :
    applyResolve s client tx = (s, .clientMismatch) := by
  unfold applyResolve; rw [h]; simp [hc]

theorem applyResolve_locked (s : EngineState) (client : ClientId) (tx : TxnId)
    (entry : TxEntry) (h : s.transactions tx = some entry)
    (hc : client = entry.client) (hl : (s.accounts client).is_locked = true) :
    applyResolve s client tx = (touch s client, .lockedAccount) := by
  unfold applyResolve; rw [h]; subst hc; simp [hl]

theorem applyResolve_ok (s : EngineState) (client : ClientId) (tx : TxnId)
    (entry : TxEntry) (h : s.transactions tx = some entry)
    (hc : client = entry.client) (hl : (s.accounts client).is_locked = false)
    (hd : tx ∈ s.disputed) :
    applyResolve s client tx =
      ({ accounts := setAcct s.accounts client
          { s.accounts client with
              available := (s.accounts client).available + entry.amount
              held := (s.accounts client).held - entry.amount }
         knownClients := insert client s.knownClients
         transactions := s.transactions
         disputed := s.disputed.erase tx }, .ok) := by
  unfold applyResolve; rw [h]; subst hc; simp [hl, hd]

theorem applyResolve_undisputed (s : EngineState) (client : ClientId)
    (tx : TxnId) (entry : TxEntry) (h : s.transactions tx = some entry)
    (hc : client = entry.client) (hl : (s.accounts client).is_locked = false)
    (hd : tx ∉ s.disputed) :
    applyResolve s client tx = (touch s client, .undisputedTxn) := by
  unfold applyResolve; rw [h]; subst hc; simp [hl, hd]

theorem applyChargeback_unknown (s : EngineState) (client : ClientId)
    (tx : TxnId) (h : s.transactions tx = none) :
    applyChargeback s client tx = (s, .unknownTxn) := by
  unfold applyChargeback; rw [h]

theorem applyChargeback_mismatch (s : EngineState) (client : ClientId)
    (tx : TxnId) (entry : TxEntry) (h : s.transactions tx = some entry)
    (hc : client ≠ entry.client) :
    applyChargeback s client tx = (s, .clientMismatch) := by
  unfold applyChargeback; rw [h]; simp [hc]

theorem applyChargeback_locked (s : EngineState) (client : ClientId)
    (tx : TxnId) (entry : TxEntry) (h : s.transactions tx = some entry)
    (hc : client = entry.client) (hl : (s.accounts client).is_locked = true) :
    applyChargeback s client tx = (touch s client, .lockedAccount) := by
  unfold applyChargeback; rw [h]; subst hc; simp [hl]

theorem applyChargeback_ok (s : EngineState) (client : ClientId) (tx : TxnId)
    (entry : TxEntry) (h : s.transactions tx = some entry)
    (hc : client = entry.client) (hl : (s.accounts client).is_locked = false)
    (hd : tx ∈ s.disputed) :
    applyChargeback s client tx =
      ({ accounts := setAcct s.accounts client
          { s.accounts client with
              held := (s.accounts client).held - entry.amount
              is_locked := true }
         knownClients := insert client s.knownClients
         transactions := s.transactions
         disputed := s.disputed.erase tx }, .ok) := by
  unfold applyChargeback; rw [h]; subst hc; simp [hl, hd]

theorem applyChargeback_undisputed (s : EngineState) (client : ClientId)
    (tx : TxnId) (entry : TxEntry) (h : s.transactions tx = some entry)
    (hc : client = entry.client) (hl : (s.accounts client).is_locked = false)
    (hd : tx ∉ s.disputed) :
    applyChargeback s client tx = (touch s client, .undisputedTxn) := by
  unfold applyChargeback; rw [h]; subst hc; simp [hl, hd]

/-! ### The reachability invariant

`disputedSum s c` is the total amount currently on dispute-hold that was
placed there for client `c`'s transactions; the invariant `Inv` relates it
to the balances and is preserved by every step on well-formed events. -/

/-- The amount a disputed tx id contributes to client `c`'s hold. -/
def txAmountFor (txns : TxnId → Option TxEntry) (c : ClientId) (t : TxnId) :
    Amount :=
  match txns t with
  | some entry => if entry.client = c then entry.amount else 0
  | none => 0

def disputedSum (s : EngineState) (c : ClientId) : Amount :=
  s.disputed.sum (txAmountFor s.transactions c)

/-- How much of `held` is *not* accounted for by currently open disputes.
A double dispute of the same tx id strictly increases this; nothing ever
decreases it. -/
def slack (s : EngineState) (c : ClientId) : Amount :=
  (s.accounts c).held - disputedSum s c

structure EngineInv (s : EngineState) : Prop where
  avail_nonneg : ∀ c, 0 ≤ (s.accounts c).available
  held_ge : ∀ c, disputedSum s c ≤ (s.accounts c).held
  amounts_pos : ∀ t e, s.transactions t = some e → 0 < e.amount
  disputed_known : ∀ t ∈ s.disputed, (s.transactions t).isSome

theorem txAmountFor_nonneg (txns : TxnId → Option TxEntry)
    (hpos : ∀ t e, txns t = some e → 0 < e.amount) (c : ClientId) (t : TxnId) :
    0 ≤ txAmountFor txns c t := by
  unfold txAmountFor
  split
  next entry heq =>
    split
    · exact (hpos t entry heq).le
    · exact le_refl 0
  next => exact le_refl 0

theorem txAmountFor_owner (txns : TxnId → Option TxEntry) {t : TxnId}
    {entry : TxEntry} (h : txns t = some entry) :
    txAmountFor txns entry.client t = entry.amount := by
  unfold txAmountFor; rw [h]; simp

theorem txAmountFor_other (txns : TxnId → Option TxEntry) {t : TxnId}
    {entry : TxEntry} (h : txns t = some entry) {c : ClientId}
    (hc : entry.client ≠ c) : txAmountFor txns c t = 0 := by
  unfold txAmountFor; rw [h]; simp [hc]

theorem disputedSum_nonneg (s : EngineState) (h : EngineInv s) (c : ClientId) :
    0 ≤ disputedSum s c :=
  Finset.sum_nonneg fun t _ => txAmountFor_nonneg s.transactions h.amounts_pos c t

theorem held_nonneg_of_inv (s : EngineState) (h : EngineInv s) (c : ClientId) :
    0 ≤ (s.accounts c).held :=
  le_trans (disputedSum_nonneg s h c) (h.held_ge c)

/-- Extending the transaction table at a tx id that is not currently
disputed does not change any dispute-hold sum. -/
theorem sum_setTx_fresh (s : EngineState) {tx : TxnId} (v : TxEntry)
    (hnotd : tx ∉ s.disputed) (c : ClientId) :
    s.disputed.sum (txAmountFor (setTx s.transactions tx v) c) =
      disputedSum s c := by
  unfold disputedSum
  refine Finset.sum_congr rfl fun t ht => ?_
  have hne : t ≠ tx := fun h => hnotd (h ▸ ht)
  unfold txAmountFor
  rw [setTx_ne _ _ hne]

theorem disputedSum_erase (s : EngineState) {tx : TxnId}
    (htx : tx ∈ s.disputed) (c : ClientId) :
    (s.disputed.erase tx).sum (txAmountFor s.transactions c) =
      disputedSum s c - txAmountFor s.transactions c tx := by
  have h := Finset.sum_erase_add s.disputed (txAmountFor s.transactions c) htx
  unfold disputedSum
  exact eq_sub_of_add_eq h

theorem disputedSum_insert_notMem (s : EngineState) {tx : TxnId}
    (htx : tx ∉ s.disputed) (c : ClientId) :
    (insert tx s.disputed).sum (txAmountFor s.transactions c) =
      txAmountFor s.transactions c tx + disputedSum s c :=
  Finset.sum_insert htx

theorem engineInv_touch (s : EngineState) (c : ClientId) (h : EngineInv s) :
    EngineInv (touch s c) :=
  ⟨h.avail_nonneg, h.held_ge, h.amounts_pos, h.disputed_known⟩

theorem disputedSum_mk (acc : ClientId → AccountInfo) (kc : Finset ClientId)
    (txns : TxnId → Option TxEntry) (d : Finset TxnId) (c : ClientId) :
    disputedSum ⟨acc, kc, txns, d⟩ c = d.sum (txAmountFor txns c) := rfl

theorem slack_mk (acc : ClientId → AccountInfo) (kc : Finset ClientId)
    (txns : TxnId → Option TxEntry) (d : Finset TxnId) (c : ClientId) :
    slack ⟨acc, kc, txns, d⟩ c = (acc c).held - d.sum (txAmountFor txns c) := rfl

theorem notMem_disputed_of_fresh (s : EngineState) {tx : TxnId}
    (h : EngineInv s) (hf : s.transactions tx = none) : tx ∉ s.disputed := by
  intro hmem
  have hk := h.disputed_known tx hmem
  rw [hf] at hk
  simp at hk

theorem applyDeposit_preserves (s : EngineState) (client : ClientId)
    (tx : TxnId) (amount : Amount) (h : EngineInv s) (ha : 0 < amount) :
    EngineInv (applyDeposit s client tx amount).1 ∧
      ∀ c, slack (applyDeposit s client tx amount).1 c = slack s c := by
  cases hl : (s.accounts client).is_locked with
  | true =>
    rw [applyDeposit_locked s client tx amount hl]
    exact ⟨engineInv_touch s client h, fun c => rfl⟩
  | false =>
    cases hf : s.transactions tx with
    | some v =>
      rw [applyDeposit_dup s client tx amount hl (by simp [hf])]
      exact ⟨engineInv_touch s client h, fun c => rfl⟩
    | none =>
      rw [applyDeposit_ok s client tx amount hl hf]
      have hnd : tx ∉ s.disputed := notMem_disputed_of_fresh s h hf
      have hsum : ∀ c, s.disputed.sum
          (txAmountFor (setTx s.transactions tx ⟨.DepositKind, client, amount⟩) c) =
          disputedSum s c := fun c =>
        sum_setTx_fresh s ⟨.DepositKind, client, amount⟩ hnd c
      refine ⟨⟨?_, ?_, ?_, ?_⟩, ?_⟩
      · intro c
        dsimp only
        by_cases hc : c = client
        · subst hc
          rw [setAcct_self]
          exact add_nonneg (h.avail_nonneg _) ha.le
        · rw [setAcct_ne _ _ hc]
          exact h.avail_nonneg c
      · intro c
        rw [disputedSum_mk, hsum c]
        dsimp only
        by_cases hc : c = client
        · subst hc
          rw [setAcct_self]
          exact h.held_ge c
        · rw [setAcct_ne _ _ hc]
          exact h.held_ge c
      · intro t e het
        dsimp only at het
        by_cases ht : t = tx
        · subst ht
          rw [setTx_self] at het
          cases het
          exact ha
        · rw [setTx_ne _ _ ht] at het
          exact h.amounts_pos t e het
      · intro t ht
        dsimp only at ht ⊢
        by_cases htx : t = tx
        · subst htx
          rw [setTx_self]
          rfl
        · rw [setTx_ne _ _ htx]
          exact h.disputed_known t ht
      · intro c
        rw [slack_mk, hsum c]
        unfold slack
        by_cases hc : c = client
        · subst hc
          rw [setAcct_self]
        · rw [setAcct_ne _ _ hc]

theorem applyWithdrawal_preserves (s : EngineState) (client : ClientId)
    (tx : TxnId) (amount : Amount) (h : EngineInv s) (ha : 0 < amount) :
    EngineInv (applyWithdrawal s client tx amount).1 ∧
      ∀ c, slack (applyWithdrawal s client tx amount).1 c = slack s c := by
  cases hl : (s.accounts client).is_locked with
  | true =>
    rw [applyWithdrawal_locked s client tx amount hl]
    exact ⟨engineInv_touch s client h, fun c => rfl⟩
  | false =>
    cases hf : s.transactions tx with
    | some v =>
      rw [applyWithdrawal_dup s client tx amount hl (by simp [hf])]
      exact ⟨engineInv_touch s client h, fun c => rfl⟩
    | none =>
      have hnd : tx ∉ s.disputed := notMem_disputed_of_fresh s h hf
      have hsum : ∀ c, s.disputed.sum
          (txAmountFor (setTx s.transactions tx ⟨.WithdrawalKind, client, amount⟩) c) =
          disputedSum s c := fun c =>
        sum_setTx_fresh s ⟨.WithdrawalKind, client, amount⟩ hnd c
      by_cases hav : amount ≤ (s.accounts client).available
      · rw [applyWithdrawal_ok s client tx amount hl hf hav]
        refine ⟨⟨?_, ?_, ?_, ?_⟩, ?_⟩
        · intro c
          dsimp only
          by_cases hc : c = client
          · subst hc
            rw [setAcct_self]
            exact sub_nonneg.mpr hav
          · rw [setAcct_ne _ _ hc]
            exact h.avail_nonneg c
        · intro c
          rw [disputedSum_mk, hsum c]
          dsimp only
          by_cases hc : c = client
          · subst hc
            rw [setAcct_self]
            exact h.held_ge c
          · rw [setAcct_ne _ _ hc]
            exact h.held_ge c
        · intro t e het
          dsimp only at het
          by_cases ht : t = tx
          · subst ht
            rw [setTx_self] at het
            cases het
            exact ha
          · rw [setTx_ne _ _ ht] at het
            exact h.amounts_pos t e het
        · intro t ht
          dsimp only at ht ⊢
          by_cases htx : t = tx
          · subst htx
            rw [setTx_self]
            rfl
          · rw [setTx_ne _ _ htx]
            exact h.disputed_known t ht
        · intro c
          rw [slack_mk, hsum c]
          unfold slack
          by_cases hc : c = client
          · subst hc
            rw [setAcct_self]
          · rw [setAcct_ne _ _ hc]
      · rw [applyWithdrawal_insufficient s client tx amount hl hf hav]
        refine ⟨⟨h.avail_nonneg, ?_, ?_, ?_⟩, ?_⟩
        · intro c
          rw [disputedSum_mk, hsum c]
          exact h.held_ge c
        · intro t e het
          dsimp only at het
          by_cases ht : t = tx
          · subst ht
            rw [setTx_self] at het
            cases het
            exact ha
          · rw [setTx_ne _ _ ht] at het
            exact h.amounts_pos t e het
        · intro t ht
          dsimp only at ht ⊢
          by_cases htx : t = tx
          · subst htx
            rw [setTx_self]
            rfl
          · rw [setTx_ne _ _ htx]
            exact h.disputed_known t ht
        · intro c
          rw [slack_mk, hsum c]
          unfold slack
          rfl


theorem applyDispute_preserves (s : EngineState) (client : ClientId)
    (tx : TxnId) (h : EngineInv s) :
    EngineInv (applyDispute s client tx).1 ∧
      ∀ c, slack s c ≤ slack (applyDispute s client tx).1 c := by
  cases hf : s.transactions tx with
  | none =>
    rw [applyDispute_unknown s client tx hf]
    exact ⟨h, fun c => le_refl _⟩
  | some entry =>
    by_cases hc : client = entry.client
    · subst hc
      cases hl : (s.accounts entry.client).is_locked with
      | true =>
        rw [applyDispute_locked s entry.client tx entry hf rfl hl]
        exact ⟨engineInv_touch s entry.client h, fun c => le_refl _⟩
      | false =>
        by_cases hav : entry.amount ≤ (s.accounts entry.client).available
        · rw [applyDispute_ok s entry.client tx entry hf rfl hl hav]
          have hapos : 0 < entry.amount := h.amounts_pos tx entry hf
          have howner : txAmountFor s.transactions entry.client tx = entry.amount :=
            txAmountFor_owner s.transactions hf
          refine ⟨⟨?_, ?_, h.amounts_pos, ?_⟩, ?_⟩
          · intro c
            dsimp only
            by_cases hcc : c = entry.client
            · subst hcc
              rw [setAcct_self]
              exact sub_nonneg.mpr hav
            · rw [setAcct_ne _ _ hcc]
              exact h.avail_nonneg c
          · intro c
            unfold disputedSum
            dsimp only
            by_cases hcc : c = entry.client
            · subst hcc
              rw [setAcct_self]
              dsimp only
              by_cases hmem : tx ∈ s.disputed
              · rw [Finset.insert_eq_self.mpr hmem]
                have hge := h.held_ge entry.client
                unfold disputedSum at hge
                linarith
              · rw [Finset.sum_insert hmem, howner]
                have hge := h.held_ge entry.client
                unfold disputedSum at hge
                linarith
            · rw [setAcct_ne _ _ hcc]
              by_cases hmem : tx ∈ s.disputed
              · rw [Finset.insert_eq_self.mpr hmem]
                exact h.held_ge c
              · rw [Finset.sum_insert hmem,
                   txAmountFor_other s.transactions hf (fun he => hcc he.symm)]
                have hge := h.held_ge c
                unfold disputedSum at hge
                linarith
          · intro t ht
            dsimp only at ht ⊢
            rcases Finset.mem_insert.mp ht with ht1 | ht2
            · subst ht1
              rw [hf]
              rfl
            · exact h.disputed_known t ht2
          · intro c
            unfold slack disputedSum
            dsimp only
            by_cases hcc : c = entry.client
            · subst hcc
              rw [setAcct_self]
              dsimp only
              by_cases hmem : tx ∈ s.disputed
              · rw [Finset.insert_eq_self.mpr hmem]
                linarith
              · rw [Finset.sum_insert hmem, howner]
                linarith
            · rw [setAcct_ne _ _ hcc]
              by_cases hmem : tx ∈ s.disputed
              · rw [Finset.insert_eq_self.mpr hmem]
              · rw [Finset.sum_insert hmem,
                   txAmountFor_other s.transactions hf (fun he => hcc he.symm)]
                linarith
        · rw [applyDispute_insufficient s entry.client tx entry hf rfl hl hav]
          exact ⟨engineInv_touch s entry.client h, fun c => le_refl _⟩
    · rw [applyDispute_mismatch s client tx entry hf hc]
      exact ⟨h, fun c => le_refl _⟩

theorem applyResolve_preserves (s : EngineState) (client : ClientId)
    (tx : TxnId) (h : EngineInv s) :
    EngineInv (applyResolve s client tx).1 ∧
      ∀ c, slack (applyResolve s client tx).1 c = slack s c := by
  cases hf : s.transactions tx with
  | none =>
    rw [applyResolve_unknown s client tx hf]
    exact ⟨h, fun c => rfl⟩
  | some entry =>
    by_cases hc : client = entry.client
    · subst hc
      cases hl : (s.accounts entry.client).is_locked with
      | true =>
        rw [applyResolve_locked s entry.client tx entry hf rfl hl]
        exact ⟨engineInv_touch s entry.client h, fun c => rfl⟩
      | false =>
        by_cases hd : tx ∈ s.disputed
        · rw [applyResolve_ok s entry.client tx entry hf rfl hl hd]
          have hapos : 0 < entry.amount := h.amounts_pos tx entry hf
          have howner : txAmountFor s.transactions entry.client tx = entry.amount :=
            txAmountFor_owner s.transactions hf
          have herase : ∀ c, (s.disputed.erase tx).sum (txAmountFor s.transactions c) =
              disputedSum s c - txAmountFor s.transactions c tx := fun c =>
            disputedSum_erase s hd c
          refine ⟨⟨?_, ?_, h.amounts_pos, ?_⟩, ?_⟩
          · intro c
            dsimp only
            by_cases hcc : c = entry.client
            · subst hcc
              rw [setAcct_self]
              have := h.avail_nonneg entry.client
              dsimp only
              linarith
            · rw [setAcct_ne _ _ hcc]
              exact h.avail_nonneg c
          · intro c
            unfold disputedSum
            dsimp only
            rw [herase c]
            by_cases hcc : c = entry.client
            · subst hcc
              rw [setAcct_self, howner]
              have hge := h.held_ge entry.client
              dsimp only
              linarith
            · rw [setAcct_ne _ _ hcc,
                 txAmountFor_other s.transactions hf (fun he => hcc he.symm)]
              have hge := h.held_ge c
              linarith
          · intro t ht
            dsimp only at ht ⊢
            exact h.disputed_known t (Finset.mem_of_mem_erase ht)
          · intro c
            unfold slack disputedSum
            dsimp only
            rw [herase c]
            by_cases hcc : c = entry.client
            · subst hcc
              rw [setAcct_self, howner]
              dsimp only
              unfold disputedSum
              ring
            · rw [setAcct_ne _ _ hcc,
                 txAmountFor_other s.transactions hf (fun he => hcc he.symm)]
              unfold disputedSum
              ring
        · rw [applyResolve_undisputed s entry.client tx entry hf rfl hl hd]
          exact ⟨engineInv_touch s entry.client h, fun c => rfl⟩
    · rw [applyResolve_mismatch s client tx entry hf hc]
      exact ⟨h, fun c => rfl⟩

theorem applyChargeback_preserves (s : EngineState) (client : ClientId)
    (tx : TxnId) (h : EngineInv s) :
    EngineInv (applyChargeback s client tx).1 ∧
      ∀ c, slack (applyChargeback s client tx).1 c = slack s c := by
  cases hf : s.transactions tx with
  | none =>
    rw [applyChargeback_unknown s client tx hf]
    exact ⟨h, fun c => rfl⟩
  | some entry =>
    by_cases hc : client = entry.client
    · subst hc
      cases hl : (s.accounts entry.client).is_locked with
      | true =>
        rw [applyChargeback_locked s entry.client tx entry hf rfl hl]
        exact ⟨engineInv_touch s entry.client h, fun c => rfl⟩
      | false =>
        by_cases hd : tx ∈ s.disputed
        · rw [applyChargeback_ok s entry.client tx entry hf rfl hl hd]
          have howner : txAmountFor s.transactions entry.client tx = entry.amount :=
            txAmountFor_owner s.transactions hf
          have herase : ∀ c, (s.disputed.erase tx).sum (txAmountFor s.transactions c) =
              disputedSum s c - txAmountFor s.transactions c tx := fun c =>
            disputedSum_erase s hd c
          refine ⟨⟨?_, ?_, h.amounts_pos, ?_⟩, ?_⟩
          · intro c
            dsimp only
            by_cases hcc : c = entry.client
            · subst hcc
              rw [setAcct_self]
              exact h.avail_nonneg entry.client
            · rw [setAcct_ne _ _ hcc]
              exact h.avail_nonneg c
          · intro c
            unfold disputedSum
            dsimp only
            rw [herase c]
            by_cases hcc : c = entry.client
            · subst hcc
              rw [setAcct_self, howner]
              have hge := h.held_ge entry.client
              dsimp only
              linarith
            · rw [setAcct_ne _ _ hcc,
                 txAmountFor_other s.transactions hf (fun he => hcc he.symm)]
              have hge := h.held_ge c
              linarith
          · intro t ht
            dsimp only at ht ⊢
            exact h.disputed_known t (Finset.mem_of_mem_erase ht)
          · intro c
            unfold slack disputedSum
            dsimp only
            rw [herase c]
            by_cases hcc : c = entry.client
            · subst hcc
              rw [setAcct_self, howner]
              dsimp only
              unfold disputedSum
              ring
            · rw [setAcct_ne _ _ hcc,
                 txAmountFor_other s.transactions hf (fun he => hcc he.symm)]
              unfold disputedSum
              ring
        · rw [applyChargeback_undisputed s entry.client tx entry hf rfl hl hd]
          exact ⟨engineInv_touch s entry.client h, fun c => rfl⟩
    · rw [applyChargeback_mismatch s client tx entry hf hc]
      exact ⟨h, fun c => rfl⟩

/-- One step on a well-formed event preserves the invariant, and never
decreases any client's held-balance slack. -/
theorem step_preserves (s : EngineState) (e : Txn) (h : EngineInv s)
    (hw : e.wf) :
    EngineInv (step s e).1 ∧ ∀ c, slack s c ≤ slack (step s e).1 c := by
  cases e with
  | Deposit client tx amount =>
    have hp := applyDeposit_preserves s client tx amount h hw
    exact ⟨hp.1, fun c => le_of_eq (hp.2 c).symm⟩
  | Withdrawal client tx amount =>
    have hp := applyWithdrawal_preserves s client tx amount h hw
    exact ⟨hp.1, fun c => le_of_eq (hp.2 c).symm⟩
  | Dispute client tx =>
    exact applyDispute_preserves s client tx h
  | Resolve client tx =>
    have hp := applyResolve_preserves s client tx h
    exact ⟨hp.1, fun c => le_of_eq (hp.2 c).symm⟩
  | Chargeback client tx =>
    have hp := applyChargeback_preserves s client tx h
    exact ⟨hp.1, fun c => le_of_eq (hp.2 c).symm⟩

theorem processEvents_preserves (es : List Txn) (s : EngineState)
    (h : EngineInv s) (hw : wfEvents es) :
    EngineInv (processEvents s es) ∧
      ∀ c, slack s c ≤ slack (processEvents s es) c := by
  induction es generalizing s with
  | nil => exact ⟨h, fun c => le_refl _⟩
  | cons e es ih =>
    have he : e.wf := hw e (List.mem_cons_self e es)
    have hes : wfEvents es := fun x hx => hw x (List.mem_cons_of_mem e hx)
    have h1 := step_preserves s e h he
    have h2 := ih (step s e).1 h1.1 hes
    rw [processEvents_cons]
    exact ⟨h2.1, fun c => le_trans (h1.2 c) (h2.2 c)⟩

theorem engineInv_init : EngineInv initState := by
  refine ⟨fun c => le_refl 0, fun c => ?_, fun t e het => ?_, fun t ht => ?_⟩
  · show disputedSum initState c ≤ 0
    unfold disputedSum initState
    simp
  · exact absurd het (by simp [initState])
  · exact absurd ht (by simp [initState])

/-- Every state reachable from the initial state by well-formed events
satisfies the invariant. -/
theorem engineInv_reachable (es : List Txn) (hw : wfEvents es) :
    EngineInv (processEvents initState es) :=
  (processEvents_preserves es initState engineInv_init hw).1

/-! ### Claim theorems -/

/-- C3: for every well-formed event sequence, every account's available
balance is nonnegative after each applied event (every reachable state has
`0 ≤ available` for every client): Withdrawal only subtracts when the
amount is at most `available`, and Dispute only moves funds to `held` when
`available` covers the amount. -/
theorem available_nonneg_reachable (es : List Txn) (hw : wfEvents es)
    (c : ClientId) :
    0 ≤ ((processEvents initState es).accounts c).available :=
  (engineInv_reachable es hw).avail_nonneg c

theorem available_nonneg_reachable_witness :
    wfEvents [Txn.Deposit 1 1 50000, Txn.Withdrawal 1 2 20000] ∧
    0 ≤ ((processEvents initState
        [Txn.Deposit 1 1 50000, Txn.Withdrawal 1 2 20000]).accounts 1).available :=
  ⟨by decide,
   available_nonneg_reachable [Txn.Deposit 1 1 50000, Txn.Withdrawal 1 2 20000]
     (by decide) 1⟩

/-- C9: for every well-formed event sequence, every account's held balance
is nonnegative after each applied event: `held` always dominates the sum of
the amounts currently under dispute for that client, which is itself
nonnegative, so `held` never goes negative (not even transiently). -/
theorem held_nonneg_reachable (es : List Txn) (hw : wfEvents es)
    (c : ClientId) :
    0 ≤ ((processEvents initState es).accounts c).held :=
  held_nonneg_of_inv _ (engineInv_reachable es hw) c

theorem held_nonneg_reachable_witness :
    wfEvents [Txn.Deposit 1 1 50000, Txn.Dispute 1 1, Txn.Resolve 1 1] ∧
    0 ≤ ((processEvents initState
        [Txn.Deposit 1 1 50000, Txn.Dispute 1 1, Txn.Resolve 1 1]).accounts 1).held :=
  ⟨by decide,
   held_nonneg_reachable [Txn.Deposit 1 1 50000, Txn.Dispute 1 1, Txn.Resolve 1 1]
     (by decide) 1⟩

/-- C7: a Dispute, Resolve or Chargeback naming a tx id that is absent
from the transaction table leaves the entire engine state unchanged (no
account created or mutated, transaction table and dispute set unchanged);
the event is silently ignored. -/
theorem unknown_tx_is_noop (s : EngineState) (e : Txn) (c : ClientId)
    (t : TxnId)
    (hfam : e = .Dispute c t ∨ e = .Resolve c t ∨ e = .Chargeback c t)
    (ht : s.transactions t = none) :
    step s e = (s, Outcome.unknownTxn) := by
  rcases hfam with rfl | rfl | rfl
  · exact applyDispute_unknown s c t ht
  · exact applyResolve_unknown s c t ht
  · exact applyChargeback_unknown s c t ht

theorem unknown_tx_is_noop_witness :
    initState.transactions 5 = none ∧
    step initState (.Dispute 1 5) = (initState, Outcome.unknownTxn) :=
  ⟨rfl, unknown_tx_is_noop initState (.Dispute 1 5) 1 5 (Or.inl rfl) rfl⟩

/-- C6: a Deposit or Withdrawal whose tx id is already in the transaction
table (whatever the stored record's kind or client) is rejected: no
account's balances change, the transaction table and dispute set are
unchanged, and when the account is not locked the rejection reason is
precisely the duplicate tx id. -/
theorem duplicate_txn_rejected (s : EngineState) (c : ClientId) (t : TxnId)
    (amount : Amount) (e : Txn)
    (he : e = .Deposit c t amount ∨ e = .Withdrawal c t amount)
    (hdup : (s.transactions t).isSome) :
    (step s e).2 ≠ Outcome.ok ∧
    (step s e).1.accounts = s.accounts ∧
    (step s e).1.transactions = s.transactions ∧
    (step s e).1.disputed = s.disputed ∧
    ((s.accounts c).is_locked = false → (step s e).2 = Outcome.duplicateTxn) := by
  rcases he with rfl | rfl
  · have hstep : step s (Txn.Deposit c t amount) = applyDeposit s c t amount := rfl
    cases hl : (s.accounts c).is_locked with
    | true =>
      rw [hstep, applyDeposit_locked s c t amount hl]
      exact ⟨by simp, rfl, rfl, rfl, fun hfl => nomatch hfl⟩
    | false =>
      rw [hstep, applyDeposit_dup s c t amount hl hdup]
      exact ⟨by simp, rfl, rfl, rfl, fun _ => rfl⟩
  · have hstep : step s (Txn.Withdrawal c t amount) = applyWithdrawal s c t amount := rfl
    cases hl : (s.accounts c).is_locked with
    | true =>
      rw [hstep, applyWithdrawal_locked s c t amount hl]
      exact ⟨by simp, rfl, rfl, rfl, fun hfl => nomatch hfl⟩
    | false =>
      rw [hstep, applyWithdrawal_dup s c t amount hl hdup]
      exact ⟨by simp, rfl, rfl, rfl, fun _ => rfl⟩

theorem duplicate_txn_rejected_witness :
    ((processEvents initState [Txn.Deposit 1 1 50000]).transactions 1).isSome = true ∧
    (step (processEvents initState [Txn.Deposit 1 1 50000])
        (.Withdrawal 2 1 30000)).2 = Outcome.duplicateTxn ∧
    (step (processEvents initState [Txn.Deposit 1 1 50000])
        (.Withdrawal 2 1 30000)).1.accounts =
      (processEvents initState [Txn.Deposit 1 1 50000]).accounts := by
  have h := duplicate_txn_rejected (processEvents initState [Txn.Deposit 1 1 50000])
    2 1 30000 (.Withdrawal 2 1 30000) (Or.inr rfl) (by decide)
  exact ⟨by decide, h.2.2.2.2 (by decide), h.2.1⟩

/-- C5: a successful Chargeback — known transaction owned by the event's
client, unlocked account, tx currently disputed — debits `held` by the
transaction's original amount, leaves `available` unchanged, locks the
account, and removes the tx from the dispute set; and on the concrete
scenario deposit(2,10,10.0); dispute(2,10); chargeback(2,10) client 2 ends
with available = 0, held = 0, locked = true. -/
theorem chargeback_locks_account :
    (∀ (s : EngineState) (c : ClientId) (t : TxnId) (k : TxnKind) (a : Amount),
      s.transactions t = some ⟨k, c, a⟩ →
      (s.accounts c).is_locked = false →
      t ∈ s.disputed →
      (step s (.Chargeback c t)).2 = Outcome.ok ∧
      ((step s (.Chargeback c t)).1.accounts c).held = (s.accounts c).held - a ∧
      ((step s (.Chargeback c t)).1.accounts c).available = (s.accounts c).available ∧
      ((step s (.Chargeback c t)).1.accounts c).is_locked = true ∧
      (step s (.Chargeback c t)).1.disputed = s.disputed.erase t) ∧
    (processEvents initState
        [Txn.Deposit 2 10 100000, Txn.Dispute 2 10, Txn.Chargeback 2 10]).accounts 2 =
      ⟨0, 0, true⟩ := by
  constructor
  · intro s c t k a htx hl hd
    have hstep : step s (Txn.Chargeback c t) = applyChargeback s c t := rfl
    rw [hstep, applyChargeback_ok s c t ⟨k, c, a⟩ htx rfl hl hd]
    refine ⟨rfl, ?_, ?_, ?_, rfl⟩ <;>
      · dsimp only
        rw [setAcct_self]
  · decide

theorem chargeback_locks_account_witness :
    ((processEvents initState [Txn.Deposit 2 10 100000, Txn.Dispute 2 10]).transactions 10 =
      some ⟨.DepositKind, 2, 100000⟩) ∧
    (((processEvents initState
        [Txn.Deposit 2 10 100000, Txn.Dispute 2 10]).accounts 2).is_locked = false) ∧
    (10 ∈ (processEvents initState [Txn.Deposit 2 10 100000, Txn.Dispute 2 10]).disputed) ∧
    ((step (processEvents initState [Txn.Deposit 2 10 100000, Txn.Dispute 2 10])
        (.Chargeback 2 10)).2 = Outcome.ok) ∧
    (((step (processEvents initState [Txn.Deposit 2 10 100000, Txn.Dispute 2 10])
        (.Chargeback 2 10)).1.accounts 2).is_locked = true) := by
  have h := chargeback_locks_account.1
    (processEvents initState [Txn.Deposit 2 10 100000, Txn.Dispute 2 10])
    2 10 .DepositKind 100000 (by decide) (by decide) (by decide)
  exact ⟨by decide, by decide, by decide, h.1, h.2.2.2.1⟩

/-- C1 counterexample: a Withdrawal rejected for insufficient funds *does*
insert its transaction record (the insert at lines 153-158 precedes the
funds check at 159-164), and a later Dispute of that tx id is accepted
rather than failing as an unknown transaction. -/
theorem rejected_withdrawal_still_recorded_cex :
    (step (processEvents initState [Txn.Deposit 4 1 100000])
        (.Withdrawal 4 30 200000)).2 = Outcome.insufficientFunds ∧
    (processEvents initState
        [Txn.Deposit 4 1 100000, Txn.Withdrawal 4 30 200000]).transactions 30 =
      some ⟨.WithdrawalKind, 4, 200000⟩ ∧
    (step (processEvents initState
        [Txn.Deposit 4 1 100000, Txn.Withdrawal 4 30 200000, Txn.Deposit 4 2 300000])
        (.Dispute 4 30)).2 = Outcome.ok :=
  ⟨by decide, by decide, by decide⟩

/-- A dispute of a tx id that is present in the transaction table is never
rejected as unknown (it may still be rejected for other reasons). -/
theorem applyDispute_known_ne_unknown (s : EngineState) (c : ClientId)
    (t : TxnId) (entry : TxEntry) (h : s.transactions t = some entry) :
    (applyDispute s c t).2 ≠ Outcome.unknownTxn := by
  unfold applyDispute
  rw [h]
  dsimp only
  split_ifs <;> simp

/-- C1 amended: a Withdrawal rejected because the amount exceeds the
available funds leaves every balance unchanged but *does* insert its
transaction record, so a later Dispute of that tx id is not rejected as an
unknown transaction.  (Deposits and accepted withdrawals insert the record
together with their balance update; all other rejection paths of
Deposit/Withdrawal insert nothing and change no balance.) -/
theorem rejected_withdrawal_still_recorded (s : EngineState) (c : ClientId)
    (t : TxnId) (a : Amount) (hl : (s.accounts c).is_locked = false)
    (hfresh : s.transactions t = none)
    (hin : ¬ a ≤ (s.accounts c).available) :
    (step s (.Withdrawal c t a)).2 = Outcome.insufficientFunds ∧
    (step s (.Withdrawal c t a)).1.accounts = s.accounts ∧
    (step s (.Withdrawal c t a)).1.transactions t = some ⟨.WithdrawalKind, c, a⟩ ∧
    ∀ c2, (step (step s (.Withdrawal c t a)).1 (.Dispute c2 t)).2 ≠ Outcome.unknownTxn := by
  have hstep : step s (Txn.Withdrawal c t a) = applyWithdrawal s c t a := rfl
  rw [hstep, applyWithdrawal_insufficient s c t a hl hfresh hin]
  refine ⟨rfl, rfl, setTx_self s.transactions t _, ?_⟩
  intro c2
  exact applyDispute_known_ne_unknown _ c2 t ⟨.WithdrawalKind, c, a⟩
    (setTx_self s.transactions t _)

theorem rejected_withdrawal_still_recorded_witness :
    (((processEvents initState [Txn.Deposit 4 1 100000]).accounts 4).is_locked = false) ∧
    ((processEvents initState [Txn.Deposit 4 1 100000]).transactions 30 = none) ∧
    (¬ (200000 : Amount) ≤
      ((processEvents initState [Txn.Deposit 4 1 100000]).accounts 4).available) ∧
    ((step (processEvents initState [Txn.Deposit 4 1 100000])
        (.Withdrawal 4 30 200000)).2 = Outcome.insufficientFunds) ∧
    ((step (processEvents initState [Txn.Deposit 4 1 100000])
        (.Withdrawal 4 30 200000)).1.transactions 30 =
      some ⟨.WithdrawalKind, 4, 200000⟩) := by
  have h := rejected_withdrawal_still_recorded
    (processEvents initState [Txn.Deposit 4 1 100000]) 4 30 200000
    (by decide) (by decide) (by decide)
  exact ⟨by decide, by decide, by decide, h.1, h.2.2.1⟩

/-- One step never changes the account of a client whose account is locked:
events for that client are cut off by the locked checks before any
mutation, and events for other clients only write their own account. -/
theorem step_locked_frame (s : EngineState) (e : Txn) (c : ClientId)
    (h : (s.accounts c).is_locked = true) :
    (step s e).1.accounts c = s.accounts c := by
  cases e with
  | Deposit client t a =>
    show (applyDeposit s client t a).1.accounts c = s.accounts c
    by_cases hcc : client = c
    · subst hcc
      rw [applyDeposit_locked _ _ _ _ h]
      rfl
    · cases hl : (s.accounts client).is_locked with
      | true =>
        rw [applyDeposit_locked _ _ _ _ hl]
        rfl
      | false =>
        cases hf : s.transactions t with
        | some v =>
          rw [applyDeposit_dup _ _ _ _ hl (by simp [hf])]
          rfl
        | none =>
          rw [applyDeposit_ok _ _ _ _ hl hf]
          exact setAcct_ne _ _ fun hh => hcc hh.symm
  | Withdrawal client t a =>
    show (applyWithdrawal s client t a).1.accounts c = s.accounts c
    by_cases hcc : client = c
    · subst hcc
      rw [applyWithdrawal_locked _ _ _ _ h]
      rfl
    · cases hl : (s.accounts client).is_locked with
      | true =>
        rw [applyWithdrawal_locked _ _ _ _ hl]
        rfl
      | false =>
        cases hf : s.transactions t with
        | some v =>
          rw [applyWithdrawal_dup _ _ _ _ hl (by simp [hf])]
          rfl
        | none =>
          by_cases hav : a ≤ (s.accounts client).available
          · rw [applyWithdrawal_ok _ _ _ _ hl hf hav]
            exact setAcct_ne _ _ fun hh => hcc hh.symm
          · rw [applyWithdrawal_insufficient _ _ _ _ hl hf hav]
  | Dispute client t =>
    show (applyDispute s client t).1.accounts c = s.accounts c
    cases hf : s.transactions t with
    | none =>
      rw [applyDispute_unknown _ _ _ hf]
    | some entry =>
      by_cases hc : client = entry.client
      · subst hc
        by_cases hcc : entry.client = c
        · subst hcc
          rw [applyDispute_locked _ _ _ entry hf rfl h]
          rfl
        · cases hl : (s.accounts entry.client).is_locked with
          | true =>
            rw [applyDispute_locked _ _ _ entry hf rfl hl]
            rfl
          | false =>
            by_cases hav : entry.amount ≤ (s.accounts entry.client).available
            · rw [applyDispute_ok _ _ _ entry hf rfl hl hav]
              exact setAcct_ne _ _ fun hh => hcc hh.symm
            · rw [applyDispute_insufficient _ _ _ entry hf rfl hl hav]
              rfl
      · rw [applyDispute_mismatch _ _ _ entry hf hc]
  | Resolve client t =>
    show (applyResolve s client t).1.accounts c = s.accounts c
    cases hf : s.transactions t with
    | none =>
      rw [applyResolve_unknown _ _ _ hf]
    | some entry =>
      by_cases hc : client = entry.client
      · subst hc
        by_cases hcc : entry.client = c
        · subst hcc
          rw [applyResolve_locked _ _ _ entry hf rfl h]
          rfl
        · cases hl : (s.accounts entry.client).is_locked with
          | true =>
            rw [applyResolve_locked _ _ _ entry hf rfl hl]
            rfl
          | false =>
            by_cases hd : t ∈ s.disputed
            · rw [applyResolve_ok _ _ _ entry hf rfl hl hd]
              exact setAcct_ne _ _ fun hh => hcc hh.symm
            · rw [applyResolve_undisputed _ _ _ entry hf rfl hl hd]
              rfl
      · rw [applyResolve_mismatch _ _ _ entry hf hc]
  | Chargeback client t =>
    show (applyChargeback s client t).1.accounts c = s.accounts c
    cases hf : s.transactions t with
    | none =>
      rw [applyChargeback_unknown _ _ _ hf]
    | some entry =>
      by_cases hc : client = entry.client
      · subst hc
        by_cases hcc : entry.client = c
        · subst hcc
          rw [applyChargeback_locked _ _ _ entry hf rfl h]
          rfl
        · cases hl : (s.accounts entry.client).is_locked with
          | true =>
            rw [applyChargeback_locked _ _ _ entry hf rfl hl]
            rfl
          | false =>
            by_cases hd : t ∈ s.disputed
            · rw [applyChargeback_ok _ _ _ entry hf rfl hl hd]
              exact setAcct_ne _ _ fun hh => hcc hh.symm
            · rw [applyChargeback_undisputed _ _ _ entry hf rfl hl hd]
              rfl
      · rw [applyChargeback_mismatch _ _ _ entry hf hc]

/-- An event naming a locked client is never applied. -/
theorem step_locked_rejects (s : EngineState) (e : Txn)
    (h : (s.accounts e.client).is_locked = true) :
    (step s e).2 ≠ Outcome.ok := by
  cases e with
  | Deposit client t a =>
    simp only [Txn.client] at h
    show (applyDeposit s client t a).2 ≠ Outcome.ok
    rw [applyDeposit_locked _ _ _ _ h]
    simp
  | Withdrawal client t a =>
    simp only [Txn.client] at h
    show (applyWithdrawal s client t a).2 ≠ Outcome.ok
    rw [applyWithdrawal_locked _ _ _ _ h]
    simp
  | Dispute client t =>
    simp only [Txn.client] at h
    show (applyDispute s client t).2 ≠ Outcome.ok
    cases hf : s.transactions t with
    | none =>
      rw [applyDispute_unknown _ _ _ hf]
      simp
    | some entry =>
      by_cases hc : client = entry.client
      · subst hc
        rw [applyDispute_locked _ _ _ entry hf rfl h]
        simp
      · rw [applyDispute_mismatch _ _ _ entry hf hc]
        simp
  | Resolve client t =>
    simp only [Txn.client] at h
    show (applyResolve s client t).2 ≠ Outcome.ok
    cases hf : s.transactions t with
    | none =>
      rw [applyResolve_unknown _ _ _ hf]
      simp
    | some entry =>
      by_cases hc : client = entry.client
      · subst hc
        rw [applyResolve_locked _ _ _ entry hf rfl h]
        simp
      · rw [applyResolve_mismatch _ _ _ entry hf hc]
        simp
  | Chargeback client t =>
    simp only [Txn.client] at h
    show (applyChargeback s client t).2 ≠ Outcome.ok
    cases hf : s.transactions t with
    | none =>
      rw [applyChargeback_unknown _ _ _ hf]
      simp
    | some entry =>
      by_cases hc : client = entry.client
      · subst hc
        rw [applyChargeback_locked _ _ _ entry hf rfl h]
        simp
      · rw [applyChargeback_mismatch _ _ _ entry hf hc]
        simp

/-- C2: once a client's account is locked, every subsequent event sequence
leaves that client's account (available, held and the locked flag) exactly
unchanged, and every single subsequent event naming that client — Deposit,
Withdrawal, Dispute, Resolve or Chargeback — is rejected. -/
theorem locked_account_frozen (s : EngineState) (c : ClientId)
    (h : (s.accounts c).is_locked = true) :
    (∀ es, (processEvents s es).accounts c = s.accounts c) ∧
    (∀ es e, e.client = c → (step (processEvents s es) e).2 ≠ Outcome.ok) := by
  have key : ∀ (es : List Txn) (s2 : EngineState),
      (s2.accounts c).is_locked = true →
      (processEvents s2 es).accounts c = s2.accounts c := by
    intro es
    induction es with
    | nil => intro s2 _; rfl
    | cons e es ih =>
      intro s2 hs2
      rw [processEvents_cons]
      have hstep := step_locked_frame s2 e c hs2
      rw [ih (step s2 e).1 (by rw [hstep]; exact hs2), hstep]
  refine ⟨fun es => key es s h, fun es e he => ?_⟩
  apply step_locked_rejects
  rw [he, key es s h]
  exact h

theorem locked_account_frozen_witness :
    (((processEvents initState
        [Txn.Deposit 2 10 100000, Txn.Dispute 2 10, Txn.Chargeback 2 10]).accounts 2).is_locked
      = true) ∧
    ((processEvents (processEvents initState
        [Txn.Deposit 2 10 100000, Txn.Dispute 2 10, Txn.Chargeback 2 10])
        [Txn.Deposit 2 11 50000, Txn.Withdrawal 2 12 50000]).accounts 2 =
      (processEvents initState
        [Txn.Deposit 2 10 100000, Txn.Dispute 2 10, Txn.Chargeback 2 10]).accounts 2) ∧
    ((step (processEvents (processEvents initState
        [Txn.Deposit 2 10 100000, Txn.Dispute 2 10, Txn.Chargeback 2 10]) [])
        (.Deposit 2 11 50000)).2 ≠ Outcome.ok) := by
  have h := locked_account_frozen (processEvents initState
    [Txn.Deposit 2 10 100000, Txn.Dispute 2 10, Txn.Chargeback 2 10]) 2 (by decide)
  exact ⟨by decide, h.1 [Txn.Deposit 2 11 50000, Txn.Withdrawal 2 12 50000],
    h.2 [] (.Deposit 2 11 50000) rfl⟩

/-- Effect of a successful Dispute immediately followed by a Resolve of the
same transaction: the dispute moves the recorded amount from `available`
to `held`, the resolve moves it back and removes the tx id from the
dispute set; the transaction table is untouched throughout. -/
theorem dispute_then_resolve_effect (s1 : EngineState) (c : ClientId)
    (t : TxnId) (k : TxnKind) (a : Amount)
    (htx : s1.transactions t = some ⟨k, c, a⟩)
    (hl : (s1.accounts c).is_locked = false)
    (hav : a ≤ (s1.accounts c).available) :
    (step s1 (.Dispute c t)).2 = Outcome.ok ∧
    ((step s1 (.Dispute c t)).1.accounts c).available =
      (s1.accounts c).available - a ∧
    ((step s1 (.Dispute c t)).1.accounts c).held = (s1.accounts c).held + a ∧
    (step s1 (.Dispute c t)).1.disputed = insert t s1.disputed ∧
    (step s1 (.Dispute c t)).1.transactions = s1.transactions ∧
    (step (step s1 (.Dispute c t)).1 (.Resolve c t)).2 = Outcome.ok ∧
    ((step (step s1 (.Dispute c t)).1 (.Resolve c t)).1.accounts c).available =
      (s1.accounts c).available ∧
    ((step (step s1 (.Dispute c t)).1 (.Resolve c t)).1.accounts c).held =
      (s1.accounts c).held ∧
    (step (step s1 (.Dispute c t)).1 (.Resolve c t)).1.disputed =
      (insert t s1.disputed).erase t := by
  have hstepD : step s1 (Txn.Dispute c t) = applyDispute s1 c t := rfl
  have hdis := applyDispute_ok s1 c t ⟨k, c, a⟩ htx rfl hl hav
  have h1 : (step s1 (.Dispute c t)).2 = Outcome.ok := by rw [hstepD, hdis]
  have h2 : ((step s1 (.Dispute c t)).1.accounts c).available =
      (s1.accounts c).available - a := by
    rw [hstepD, hdis]
    dsimp only
    rw [setAcct_self]
  have h3 : ((step s1 (.Dispute c t)).1.accounts c).held =
      (s1.accounts c).held + a := by
    rw [hstepD, hdis]
    dsimp only
    rw [setAcct_self]
  have h4 : (step s1 (.Dispute c t)).1.disputed = insert t s1.disputed := by
    rw [hstepD, hdis]
  have h5 : (step s1 (.Dispute c t)).1.transactions = s1.transactions := by
    rw [hstepD, hdis]
  have htx2 : (step s1 (.Dispute c t)).1.transactions t = some ⟨k, c, a⟩ := by
    rw [h5]; exact htx
  have hl2 : ((step s1 (.Dispute c t)).1.accounts c).is_locked = false := by
    rw [hstepD, hdis]
    dsimp only
    rw [setAcct_self]
    exact hl
  have hd2 : t ∈ (step s1 (.Dispute c t)).1.disputed := by
    rw [h4]; exact Finset.mem_insert_self t _
  have hstepR : step (step s1 (.Dispute c t)).1 (Txn.Resolve c t) =
      applyResolve (step s1 (.Dispute c t)).1 c t := rfl
  have hres := applyResolve_ok (step s1 (.Dispute c t)).1 c t ⟨k, c, a⟩
    htx2 rfl hl2 hd2
  refine ⟨h1, h2, h3, h4, h5, ?_, ?_, ?_, ?_⟩
  · rw [hstepR, hres]
  · rw [hstepR, hres]
    dsimp only
    rw [setAcct_self]
    dsimp only
    rw [h2]
    ring
  · rw [hstepR, hres]
    dsimp only
    rw [setAcct_self]
    dsimp only
    rw [h3]
    ring
  · rw [hstepR, hres]
    dsimp only
    rw [h4]

/-- C4: from any reachable state in which client `c` is unlocked and tx id
`t` is unused, Deposit(c,t,a); Dispute(c,t); Resolve(c,t) all succeed, the
Dispute moving exactly `a` from available to held and the Resolve moving it
back: the final available is the pre-sequence available plus `a`, held is
unchanged, and `t` is not in the dispute set afterwards. -/
theorem deposit_dispute_resolve_roundtrip (es0 : List Txn) (s : EngineState)
    (hw : wfEvents es0) (hs : s = processEvents initState es0)
    (c : ClientId) (t : TxnId) (a : Amount)
    (hl : (s.accounts c).is_locked = false)
    (hfresh : s.transactions t = none) (ha : 0 < a) :
    (step s (.Deposit c t a)).2 = Outcome.ok ∧
    ((step s (.Deposit c t a)).1.accounts c).available =
      (s.accounts c).available + a ∧
    (step (step s (.Deposit c t a)).1 (.Dispute c t)).2 = Outcome.ok ∧
    ((step (step s (.Deposit c t a)).1 (.Dispute c t)).1.accounts c).available =
      (s.accounts c).available ∧
    ((step (step s (.Deposit c t a)).1 (.Dispute c t)).1.accounts c).held =
      (s.accounts c).held + a ∧
    (step (step (step s (.Deposit c t a)).1 (.Dispute c t)).1
        (.Resolve c t)).2 = Outcome.ok ∧
    ((step (step (step s (.Deposit c t a)).1 (.Dispute c t)).1
        (.Resolve c t)).1.accounts c).available = (s.accounts c).available + a ∧
    ((step (step (step s (.Deposit c t a)).1 (.Dispute c t)).1
        (.Resolve c t)).1.accounts c).held = (s.accounts c).held ∧
    t ∉ (step (step (step s (.Deposit c t a)).1 (.Dispute c t)).1
        (.Resolve c t)).1.disputed := by
  have hInv : EngineInv s := by rw [hs]; exact engineInv_reachable es0 hw
  have hav0 : 0 ≤ (s.accounts c).available := hInv.avail_nonneg c
  have hstep1 : step s (Txn.Deposit c t a) = applyDeposit s c t a := rfl
  have hdep := applyDeposit_ok s c t a hl hfresh
  have hS1tx : (step s (.Deposit c t a)).1.transactions t =
      some ⟨.DepositKind, c, a⟩ := by
    rw [hstep1, hdep]
    exact setTx_self s.transactions t _
  have hS1avail : ((step s (.Deposit c t a)).1.accounts c).available =
      (s.accounts c).available + a := by
    rw [hstep1, hdep]
    dsimp only
    rw [setAcct_self]
  have hS1held : ((step s (.Deposit c t a)).1.accounts c).held =
      (s.accounts c).held := by
    rw [hstep1, hdep]
    dsimp only
    rw [setAcct_self]
  have hS1lock : ((step s (.Deposit c t a)).1.accounts c).is_locked = false := by
    rw [hstep1, hdep]
    dsimp only
    rw [setAcct_self]
    exact hl
  have hav1 : a ≤ ((step s (.Deposit c t a)).1.accounts c).available := by
    rw [hS1avail]
    linarith
  obtain ⟨p1, p2, p3, p4, p5, p6, p7, p8, p9⟩ :=
    dispute_then_resolve_effect (step s (.Deposit c t a)).1 c t
      .DepositKind a hS1tx hS1lock hav1
  refine ⟨by rw [hstep1, hdep], hS1avail, p1, ?_, ?_, p6, ?_, ?_, ?_⟩
  · rw [p2, hS1avail]
    ring
  · rw [p3, hS1held]
  · rw [p7, hS1avail]
  · rw [p8, hS1held]
  · rw [p9]
    exact Finset.not_mem_erase t _

theorem deposit_dispute_resolve_roundtrip_witness :
    ((step (step (step initState (.Deposit 3 20 75000)).1 (.Dispute 3 20)).1
        (.Resolve 3 20)).1.accounts 3).available =
      (initState.accounts 3).available + 75000 ∧
    ((step (step (step initState (.Deposit 3 20 75000)).1 (.Dispute 3 20)).1
        (.Resolve 3 20)).1.accounts 3).held = (initState.accounts 3).held ∧
    20 ∉ (step (step (step initState (.Deposit 3 20 75000)).1 (.Dispute 3 20)).1
        (.Resolve 3 20)).1.disputed := by
  obtain ⟨_, _, _, _, _, _, h7, h8, h9⟩ :=
    deposit_dispute_resolve_roundtrip [] initState (by decide) rfl 3 20 75000
      rfl rfl (by decide)
  exact ⟨h7, h8, h9⟩

/-- The view of a transaction record without its kind tag. -/
def dropKind (e : TxEntry) : ClientId × Amount := (e.client, e.amount)

/-- Two engine states that are identical except possibly for the kind tags
stored in the transaction table. -/
def SameModKind (s s2 : EngineState) : Prop :=
  s.accounts = s2.accounts ∧ s.knownClients = s2.knownClients ∧
  s.disputed = s2.disputed ∧
  ∀ t, Option.map dropKind (s.transactions t) =
    Option.map dropKind (s2.transactions t)

theorem sameModKind_lookup (s s2 : EngineState) (hsim : SameModKind s s2)
    (t : TxnId) :
    (s.transactions t = none → s2.transactions t = none) ∧
    ∀ entry, s.transactions t = some entry →
      ∃ entry2, s2.transactions t = some entry2 ∧
        entry2.client = entry.client ∧ entry2.amount = entry.amount := by
  have h := hsim.2.2.2 t
  constructor
  · intro hn
    rw [hn] at h
    cases h2 : s2.transactions t with
    | none => rfl
    | some v => rw [h2] at h; exact Option.noConfusion h
  · intro entry he
    rw [he] at h
    cases h2 : s2.transactions t with
    | none => rw [h2] at h; exact Option.noConfusion h
    | some v =>
      rw [h2] at h
      simp only [Option.map_some', dropKind, Option.some.injEq, Prod.mk.injEq] at h
      exact ⟨v, rfl, h.1.symm, h.2.symm⟩

/-- C8: Dispute/Resolve/Chargeback never branch on the stored transaction's
kind tag: on any two states identical except for kind tags, the same
dispute-family event produces the same outcome and states again identical
except for those (untouched) tags — the dispute family also never writes
the transaction table. -/
theorem dispute_family_ignores_kind (s s2 : EngineState) (e : Txn)
    (c : ClientId) (t : TxnId)
    (hfam : e = .Dispute c t ∨ e = .Resolve c t ∨ e = .Chargeback c t)
    (hsim : SameModKind s s2) :
    (step s e).1.transactions = s.transactions ∧
    (step s2 e).1.transactions = s2.transactions ∧
    SameModKind (step s e).1 (step s2 e).1 ∧
    (step s e).2 = (step s2 e).2 := by
  obtain ⟨hacc, hkc, hdisp, htxm⟩ := hsim
  have hsim' : SameModKind s s2 := ⟨hacc, hkc, hdisp, htxm⟩
  have htouch : SameModKind (touch s c) (touch s2 c) := by
    refine ⟨hacc, ?_, hdisp, htxm⟩
    show insert c s.knownClients = insert c s2.knownClients
    rw [hkc]
  rcases hfam with rfl | rfl | rfl
  · show (applyDispute s c t).1.transactions = s.transactions ∧
      (applyDispute s2 c t).1.transactions = s2.transactions ∧
      SameModKind (applyDispute s c t).1 (applyDispute s2 c t).1 ∧
      (applyDispute s c t).2 = (applyDispute s2 c t).2
    cases hf : s.transactions t with
    | none =>
      have hf2 : s2.transactions t = none := (sameModKind_lookup s s2 hsim' t).1 hf
      rw [applyDispute_unknown s c t hf, applyDispute_unknown s2 c t hf2]
      exact ⟨rfl, rfl, hsim', rfl⟩
    | some entry =>
      obtain ⟨entry2, hf2, hcl, ham⟩ := (sameModKind_lookup s s2 hsim' t).2 entry hf
      by_cases hc : c = entry.client
      · have hc2 : c = entry2.client := by rw [hcl]; exact hc
        cases hl : (s.accounts c).is_locked with
        | true =>
          have hl2 : (s2.accounts c).is_locked = true := by rw [← hacc]; exact hl
          rw [applyDispute_locked s c t entry hf hc hl,
              applyDispute_locked s2 c t entry2 hf2 hc2 hl2]
          exact ⟨rfl, rfl, htouch, rfl⟩
        | false =>
          have hl2 : (s2.accounts c).is_locked = false := by rw [← hacc]; exact hl
          by_cases hav : entry.amount ≤ (s.accounts c).available
          · have hav2 : entry2.amount ≤ (s2.accounts c).available := by
              rw [ham, ← hacc]; exact hav
            rw [applyDispute_ok s c t entry hf hc hl hav,
                applyDispute_ok s2 c t entry2 hf2 hc2 hl2 hav2]
            refine ⟨rfl, rfl, ⟨?_, ?_, ?_, htxm⟩, rfl⟩
            · show setAcct s.accounts c _ = setAcct s2.accounts c _
              rw [hacc, ham]
            · show insert c s.knownClients = insert c s2.knownClients
              rw [hkc]
            · show insert t s.disputed = insert t s2.disputed
              rw [hdisp]
          · have hav2 : ¬ entry2.amount ≤ (s2.accounts c).available := by
              rw [ham, ← hacc]; exact hav
            rw [applyDispute_insufficient s c t entry hf hc hl hav,
                applyDispute_insufficient s2 c t entry2 hf2 hc2 hl2 hav2]
            exact ⟨rfl, rfl, htouch, rfl⟩
      · have hc2 : c ≠ entry2.client := by rw [hcl]; exact hc
        rw [applyDispute_mismatch s c t entry hf hc,
            applyDispute_mismatch s2 c t entry2 hf2 hc2]
        exact ⟨rfl, rfl, hsim', rfl⟩
  · show (applyResolve s c t).1.transactions = s.transactions ∧
      (applyResolve s2 c t).1.transactions = s2.transactions ∧
      SameModKind (applyResolve s c t).1 (applyResolve s2 c t).1 ∧
      (applyResolve s c t).2 = (applyResolve s2 c t).2
    cases hf : s.transactions t with
    | none =>
      have hf2 : s2.transactions t = none := (sameModKind_lookup s s2 hsim' t).1 hf
      rw [applyResolve_unknown s c t hf, applyResolve_unknown s2 c t hf2]
      exact ⟨rfl, rfl, hsim', rfl⟩
    | some entry =>
      obtain ⟨entry2, hf2, hcl, ham⟩ := (sameModKind_lookup s s2 hsim' t).2 entry hf
      by_cases hc : c = entry.client
      · have hc2 : c = entry2.client := by rw [hcl]; exact hc
        cases hl : (s.accounts c).is_locked with
        | true =>
          have hl2 : (s2.accounts c).is_locked = true := by rw [← hacc]; exact hl
          rw [applyResolve_locked s c t entry hf hc hl,
              applyResolve_locked s2 c t entry2 hf2 hc2 hl2]
          exact ⟨rfl, rfl, htouch, rfl⟩
        | false =>
          have hl2 : (s2.accounts c).is_locked = false := by rw [← hacc]; exact hl
          by_cases hd : t ∈ s.disputed
          · have hd2 : t ∈ s2.disputed := by rw [← hdisp]; exact hd
            rw [applyResolve_ok s c t entry hf hc hl hd,
                applyResolve_ok s2 c t entry2 hf2 hc2 hl2 hd2]
            refine ⟨rfl, rfl, ⟨?_, ?_, ?_, htxm⟩, rfl⟩
            · show setAcct s.accounts c _ = setAcct s2.accounts c _
              rw [hacc, ham]
            · show insert c s.knownClients = insert c s2.knownClients
              rw [hkc]
            · show s.disputed.erase t = s2.disputed.erase t
              rw [hdisp]
          · have hd2 : t ∉ s2.disputed := by rw [← hdisp]; exact hd
            rw [applyResolve_undisputed s c t entry hf hc hl hd,
                applyResolve_undisputed s2 c t entry2 hf2 hc2 hl2 hd2]
            exact ⟨rfl, rfl, htouch, rfl⟩
      · have hc2 : c ≠ entry2.client := by rw [hcl]; exact hc
        rw [applyResolve_mismatch s c t entry hf hc,
            applyResolve_mismatch s2 c t entry2 hf2 hc2]
        exact ⟨rfl, rfl, hsim', rfl⟩
  · show (applyChargeback s c t).1.transactions = s.transactions ∧
      (applyChargeback s2 c t).1.transactions = s2.transactions ∧
      SameModKind (applyChargeback s c t).1 (applyChargeback s2 c t).1 ∧
      (applyChargeback s c t).2 = (applyChargeback s2 c t).2
    cases hf : s.transactions t with
    | none =>
      have hf2 : s2.transactions t = none := (sameModKind_lookup s s2 hsim' t).1 hf
      rw [applyChargeback_unknown s c t hf, applyChargeback_unknown s2 c t hf2]
      exact ⟨rfl, rfl, hsim', rfl⟩
    | some entry =>
      obtain ⟨entry2, hf2, hcl, ham⟩ := (sameModKind_lookup s s2 hsim' t).2 entry hf
      by_cases hc : c = entry.client
      · have hc2 : c = entry2.client := by rw [hcl]; exact hc
        cases hl : (s.accounts c).is_locked with
        | true =>
          have hl2 : (s2.accounts c).is_locked = true := by rw [← hacc]; exact hl
          rw [applyChargeback_locked s c t entry hf hc hl,
              applyChargeback_locked s2 c t entry2 hf2 hc2 hl2]
          exact ⟨rfl, rfl, htouch, rfl⟩
        | false =>
          have hl2 : (s2.accounts c).is_locked = false := by rw [← hacc]; exact hl
          by_cases hd : t ∈ s.disputed
          · have hd2 : t ∈ s2.disputed := by rw [← hdisp]; exact hd
            rw [applyChargeback_ok s c t entry hf hc hl hd,
                applyChargeback_ok s2 c t entry2 hf2 hc2 hl2 hd2]
            refine ⟨rfl, rfl, ⟨?_, ?_, ?_, htxm⟩, rfl⟩
            · show setAcct s.accounts c _ = setAcct s2.accounts c _
              rw [hacc, ham]
            · show insert c s.knownClients = insert c s2.knownClients
              rw [hkc]
            · show s.disputed.erase t = s2.disputed.erase t
              rw [hdisp]
          · have hd2 : t ∉ s2.disputed := by rw [← hdisp]; exact hd
            rw [applyChargeback_undisputed s c t entry hf hc hl hd,
                applyChargeback_undisputed s2 c t entry2 hf2 hc2 hl2 hd2]
            exact ⟨rfl, rfl, htouch, rfl⟩
      · have hc2 : c ≠ entry2.client := by rw [hcl]; exact hc
        rw [applyChargeback_mismatch s c t entry hf hc,
            applyChargeback_mismatch s2 c t entry2 hf2 hc2]
        exact ⟨rfl, rfl, hsim', rfl⟩

/-- A concrete state whose only transaction is recorded as a Deposit. -/
def kindStateA : EngineState :=
  { accounts := fun _ => ⟨50000, 0, false⟩
    knownClients := ∅
    transactions := fun t2 => if t2 = 1 then some ⟨.DepositKind, 1, 50000⟩ else none
    disputed := ∅ }

/-- The same state with the single record tagged as a Withdrawal. -/
def kindStateB : EngineState :=
  { accounts := fun _ => ⟨50000, 0, false⟩
    knownClients := ∅
    transactions := fun t2 => if t2 = 1 then some ⟨.WithdrawalKind, 1, 50000⟩ else none
    disputed := ∅ }

theorem dispute_family_ignores_kind_witness :
    SameModKind kindStateA kindStateB ∧
    (step kindStateA (.Dispute 1 1)).2 = (step kindStateB (.Dispute 1 1)).2 ∧
    (step kindStateA (.Dispute 1 1)).1.disputed =
      (step kindStateB (.Dispute 1 1)).1.disputed ∧
    (step kindStateA (.Dispute 1 1)).1.accounts =
      (step kindStateB (.Dispute 1 1)).1.accounts := by
  have hsim : SameModKind kindStateA kindStateB := by
    refine ⟨rfl, rfl, rfl, ?_⟩
    intro t2
    by_cases h : t2 = 1 <;> simp [kindStateA, kindStateB, dropKind, h]
  have h := dispute_family_ignores_kind kindStateA kindStateB
    (.Dispute 1 1) 1 1 (Or.inl rfl) hsim
  exact ⟨hsim, h.2.2.2, h.2.2.1.2.2.1, h.2.2.1.1⟩

/-- C10: Dispute does not check the dispute set.  From any reachable state
in which `t` (owned by `c`, amount `a`) is *already* disputed, the account
unlocked, and `a ≤ available`, a second Dispute(c,t) succeeds and again
moves `a` from available to held while leaving the dispute set unchanged;
a single subsequent Resolve(c,t) returns only one `a` and removes `t`, and
afterwards no well-formed event sequence can ever bring that client's held
balance below `a`: the extra amount is stuck in `held`. -/
theorem double_dispute_traps_held (es0 : List Txn) (s : EngineState)
    (hw : wfEvents es0) (hs : s = processEvents initState es0)
    (c : ClientId) (t : TxnId) (k : TxnKind) (a : Amount)
    (htx : s.transactions t = some ⟨k, c, a⟩)
    (hd : t ∈ s.disputed)
    (hl : (s.accounts c).is_locked = false)
    (hav : a ≤ (s.accounts c).available) :
    (step s (.Dispute c t)).2 = Outcome.ok ∧
    ((step s (.Dispute c t)).1.accounts c).available =
      (s.accounts c).available - a ∧
    ((step s (.Dispute c t)).1.accounts c).held = (s.accounts c).held + a ∧
    (step s (.Dispute c t)).1.disputed = s.disputed ∧
    (step (step s (.Dispute c t)).1 (.Resolve c t)).2 = Outcome.ok ∧
    ((step (step s (.Dispute c t)).1 (.Resolve c t)).1.accounts c).available =
      (s.accounts c).available ∧
    ((step (step s (.Dispute c t)).1 (.Resolve c t)).1.accounts c).held =
      (s.accounts c).held ∧
    t ∉ (step (step s (.Dispute c t)).1 (.Resolve c t)).1.disputed ∧
    ∀ es, wfEvents es →
      a ≤ ((processEvents
        (step (step s (.Dispute c t)).1 (.Resolve c t)).1 es).accounts c).held := by
  have hInv : EngineInv s := by rw [hs]; exact engineInv_reachable es0 hw
  have hapos : 0 < a := hInv.amounts_pos t ⟨k, c, a⟩ htx
  obtain ⟨p1, p2, p3, p4, p5, p6, p7, p8, p9⟩ :=
    dispute_then_resolve_effect s c t k a htx hl hav
  have hdisp1 : (step s (.Dispute c t)).1.disputed = s.disputed := by
    rw [p4]
    exact Finset.insert_eq_self.mpr hd
  have hInv1 : EngineInv (step s (.Dispute c t)).1 :=
    (step_preserves s (.Dispute c t) hInv trivial).1
  have hInv2 : EngineInv (step (step s (.Dispute c t)).1 (.Resolve c t)).1 :=
    (step_preserves (step s (.Dispute c t)).1 (.Resolve c t) hInv1 trivial).1
  have hsum1 : disputedSum (step s (.Dispute c t)).1 c = disputedSum s c := by
    unfold disputedSum
    rw [hdisp1, p5]
  have hslack1 : slack (step s (.Dispute c t)).1 c = slack s c + a := by
    unfold slack
    rw [p3, hsum1]
    ring
  have hslack2 : slack (step (step s (.Dispute c t)).1 (.Resolve c t)).1 c =
      slack (step s (.Dispute c t)).1 c :=
    (applyResolve_preserves (step s (.Dispute c t)).1 c t hInv1).2 c
  have hslack0 : 0 ≤ slack s c := sub_nonneg.mpr (hInv.held_ge c)
  refine ⟨p1, p2, p3, hdisp1, p6, p7, p8, ?_, ?_⟩
  · rw [p9]
    exact Finset.not_mem_erase t _
  · intro es hwes
    have hrun := processEvents_preserves es
      (step (step s (.Dispute c t)).1 (.Resolve c t)).1 hInv2 hwes
    have hmono := hrun.2 c
    have hfin := hrun.1
    have hsge : 0 ≤ disputedSum
        (processEvents (step (step s (.Dispute c t)).1 (.Resolve c t)).1 es) c :=
      disputedSum_nonneg _ hfin c
    have hheld : slack
        (processEvents (step (step s (.Dispute c t)).1 (.Resolve c t)).1 es) c ≤
        ((processEvents (step (step s (.Dispute c t)).1 (.Resolve c t)).1
          es).accounts c).held := by
      unfold slack
      linarith
    rw [hslack2, hslack1] at hmono
    linarith

theorem double_dispute_traps_held_witness :
    ((processEvents initState
        [Txn.Deposit 1 1 50000, Txn.Deposit 1 2 100000, Txn.Dispute 1 1]).transactions 1 =
      some ⟨.DepositKind, 1, 50000⟩) ∧
    (1 ∈ (processEvents initState
        [Txn.Deposit 1 1 50000, Txn.Deposit 1 2 100000, Txn.Dispute 1 1]).disputed) ∧
    ((step (processEvents initState
        [Txn.Deposit 1 1 50000, Txn.Deposit 1 2 100000, Txn.Dispute 1 1])
        (.Dispute 1 1)).2 = Outcome.ok) ∧
    ((step (step (processEvents initState
        [Txn.Deposit 1 1 50000, Txn.Deposit 1 2 100000, Txn.Dispute 1 1])
        (.Dispute 1 1)).1 (.Resolve 1 1)).2 = Outcome.ok) ∧
    ((50000 : Amount) ≤ ((processEvents (step (step (processEvents initState
        [Txn.Deposit 1 1 50000, Txn.Deposit 1 2 100000, Txn.Dispute 1 1])
        (.Dispute 1 1)).1 (.Resolve 1 1)).1 []).accounts 1).held) := by
  obtain ⟨q1, _, _, _, q5, _, _, _, q9⟩ := double_dispute_traps_held
    [Txn.Deposit 1 1 50000, Txn.Deposit 1 2 100000, Txn.Dispute 1 1]
    (processEvents initState
      [Txn.Deposit 1 1 50000, Txn.Deposit 1 2 100000, Txn.Dispute 1 1])
    (by decide) rfl 1 1 .DepositKind 50000 (by decide) (by decide)
    (by decide) (by decide)
  exact ⟨by decide, by decide, q1, q5, q9 [] (by decide)⟩
